import Mathlib

/-!
Verification of the tool-system core of the repository:
shallow embedding of the format converter in clarissa_core/llm.py,
the tool data model in tools/_base.py, the protocol-bridge dispatch in
tools/_mcp_server.py, the standalone entry point mcp_server.py, and the
registry execute path described by the spec (tools/_registry.py is imported
by tools/__init__.py but its source is not present).
-/

namespace Clarissa

/-- A JSON value, as produced by Python's json module. -/
inductive JVal where
  | null : JVal
  | jbool : Bool → JVal
  | jnum : Int → JVal
  | jstr : String → JVal
  | jarr : List JVal → JVal
  | jobj : List (String × JVal) → JVal
deriving Repr

/-- A JSON source text, modelled by the outcome of Python's json.loads on it:
`ok v` stands for a text that parses to the value `v`; `malformed` stands
for a text on which json.loads raises json.JSONDecodeError.  The character
content of the text is irrelevant to the converter, which only ever parses
it, so this abstraction is faithful. -/
inductive JsonText where
  | ok : JVal → JsonText
  | malformed : JsonText
deriving Repr

/-- The parse result of the literal text of two braces, the default taken by
tc.get("function", ...).get("arguments", ...) in llm.py: the empty object. -/
def emptyObjText : JsonText := JsonText.ok (JVal.jobj [])

/-- The "function" sub-dict of an OpenAI-convention tool call:
keys "name" and "arguments" (arguments is a JSON string).  `none` models an
absent key. -/
structure ToolCallFunction where
  name : Option String
  arguments : Option JsonText
deriving Repr

/-- One element of an assistant message's "tool_calls" list:
keys "id" and "function". `none` models an absent key. -/
structure ToolCall where
  id : Option String
  function : Option ToolCallFunction
deriving Repr

/-- An OpenAI-convention chat message dict, the input type of
_convert_messages_to_claude_format.  Fields model the dict keys "role",
"content", "tool_calls" and "tool_call_id"; `none` models an absent key
(and, for content, also a None value, which the converter treats alike:
both are falsy and both make msg.get("content") non-truthy; the only
difference, msg.get("content", "") on a present None, does not arise in
the OpenAI convention).  An absent or empty "tool_calls" list are both
falsy in Python, so both are modelled as the empty list. -/
structure Message where
  role : Option String
  content : Option String
  tool_calls : List ToolCall
  tool_call_id : Option String
deriving Repr

/-- Python truthiness of msg.get("content"): false for an absent key and for
the empty string. -/
def pyTruthyContent : Option String → Bool
  | none => false
  | some s => s ≠ ""

/-- A content block of a Claude-convention message, as built by
_convert_messages_to_claude_format: a text block, a tool_use block
(keys type, id, name, input) or a tool_result block
(keys type, tool_use_id, content). -/
inductive Block where
  | text : String → Block
  | tool_use : Option String → Option String → JVal → Block
  | tool_result : Option String → String → Block
deriving Repr

/-- A message of the converter's output list.  The Python output list is
heterogeneous: it holds the input dicts that were passed through unchanged,
user dicts whose content is a list of tool_result blocks, and assistant
dicts whose content is a list of text/tool_use blocks.  The three shapes are
distinguished by constructor. -/
inductive ClaudeMessage where
  | passthrough : Message → ClaudeMessage
  | userResults : List Block → ClaudeMessage
  | assistantBlocks : List Block → ClaudeMessage
deriving Repr

/-- The error that escapes _convert_messages_to_claude_format: json.loads
raising on a tool call's "arguments" string; the spec names it
MalformedToolCall. -/
inductive ConvError where
  | malformedToolCall : ConvError
deriving Repr

/-- The tool_result block built for a tool-role message in llm.py:
type tool_result, tool_use_id := msg.get("tool_call_id"),
content := msg.get("content", ""). -/
def toolResultBlock (msg : Message) : Block :=
  Block.tool_result msg.tool_call_id (msg.content.getD "")

/-- The tool_use block built for one entry of an assistant message's
tool_calls in llm.py: id := tc.get("id"), name := tc.get("function", ...)
.get("name"), input := json.loads of tc.get("function", ...)
.get("arguments", text of an empty object); a parse failure escapes. -/
def toolUseBlock (tc : ToolCall) : Except ConvError Block :=
  let f := tc.function.getD ⟨none, none⟩
  match f.arguments.getD emptyObjText with
  | JsonText.ok v => Except.ok (Block.tool_use tc.id f.name v)
  | JsonText.malformed => Except.error ConvError.malformedToolCall

/-- The text blocks prepended for an assistant message: one text block when
msg.get("content") is truthy, none otherwise. -/
def assistantTextBlocks (msg : Message) : List Block :=
  if pyTruthyContent msg.content then [Block.text (msg.content.getD "")] else []

/-- The for-loop over msg["tool_calls"] in llm.py, building one tool_use
block per call in order; the first json.loads failure escapes. -/
def mapToolUseBlocks : List ToolCall → Except ConvError (List Block)
  | [] => Except.ok []
  | tc :: tcs => do
      let b ← toolUseBlock tc
      let bs ← mapToolUseBlocks tcs
      Except.ok (b :: bs)

/-- The loop body of _convert_messages_to_claude_format, with the
pending_tool_results accumulator made explicit.  Tool-role messages are
collected into pending; any other message first flushes a non-empty pending
list as a user message of tool_result blocks, then is either converted
(assistant with truthy tool_calls) or passed through; a non-empty pending
list left at the end is flushed as a final user message.  A json.loads
failure inside a tool_use block aborts the whole conversion. -/
def convertAux (pending : List Block) :
    List Message → Except ConvError (List ClaudeMessage)
  | [] =>
      if pending.isEmpty then Except.ok []
      else Except.ok [ClaudeMessage.userResults pending]
  | msg :: rest =>
      if msg.role = some "tool" then
        convertAux (pending ++ [toolResultBlock msg]) rest
      else
        let emitted : List ClaudeMessage :=
          if pending.isEmpty then [] else [ClaudeMessage.userResults pending]
        if msg.role = some "assistant" ∧ ¬ msg.tool_calls.isEmpty then do
          let useBlocks ← mapToolUseBlocks msg.tool_calls
          let tail ← convertAux [] rest
          Except.ok (emitted ++
            [ClaudeMessage.assistantBlocks (assistantTextBlocks msg ++ useBlocks)]
            ++ tail)
        else do
          let tail ← convertAux [] rest
          Except.ok (emitted ++ [ClaudeMessage.passthrough msg] ++ tail)

/-- _convert_messages_to_claude_format from clarissa_core/llm.py. -/
def _convert_messages_to_claude_format (messages : List Message) :
    Except ConvError (List ClaudeMessage) :=
  convertAux [] messages

/-- ToolContext from tools/_base.py: per-invocation execution context.
The extra dict holds platform-specific objects whose values are opaque to
this core; only its keys are modelled. -/
structure ToolContext where
  user_id : String
  channel_id : Option String
  platform : String
  extra : List String
deriving Repr

/-- A tool handler, tools/_base.py's ToolHandler: an async function from
(args, context) to a string.  An exception raised inside the handler is
modelled as Except.error carrying the exception's message (str(e)). -/
def ToolHandler : Type :=
  JVal → ToolContext → Except String String

/-- ToolDef from tools/_base.py: a plain dataclass, no __post_init__ and no
validation of any field. -/
structure ToolDef where
  name : String
  description : String
  parameters : JVal
  handler : ToolHandler
  platforms : Option (List String)
  requires : List String

/-- The ContractViolation error of the spec's taxonomy (§7). -/
inductive ContractViolation where
  | violation : String → ContractViolation
deriving Repr

/-- The dataclass constructor of ToolDef as Python runs it: tools/_base.py
defines no __post_init__ and no validator, so construction can never raise
ContractViolation — it always succeeds with the fields stored verbatim. -/
def ToolDef.construct (name description : String) (parameters : JVal)
    (handler : ToolHandler) (platforms : Option (List String))
    (requires : List String) : Except ContractViolation ToolDef :=
  Except.ok ⟨name, description, parameters, handler, platforms, requires⟩

/-- The function sub-dict of a function-list-convention tool dict:
keys "name", "description", "parameters"; `none` models an absent key. -/
structure FunctionSpec where
  name : Option String
  description : Option String
  parameters : Option JVal
deriving Repr

/-- A dict in a function-list-convention tool list.  `function f` is a dict
whose "type" key equals "function" and which has a "function" key holding
`f`; `other j` is any other dict, which _convert_tools_to_claude_format
passes through unchanged. -/
inductive ToolDict where
  | function : FunctionSpec → ToolDict
  | other : JVal → ToolDict
deriving Repr

/-- A dict in the output of _convert_tools_to_claude_format: either a
native-block tool dict with keys "name" (func.get("name"), possibly
absent), "description" and "input_schema", or a passed-through input
dict. -/
inductive ClaudeToolEntry where
  | claude : Option String → String → JVal → ClaudeToolEntry
  | passthrough : JVal → ClaudeToolEntry
deriving Repr

/-- The default input_schema taken by func.get("parameters", ...) in
llm.py: an object schema with empty properties. -/
def defaultInputSchema : JVal :=
  JVal.jobj [("type", JVal.jstr "object"), ("properties", JVal.jobj [])]

/-- _convert_tools_to_claude_format from clarissa_core/llm.py: each
function-list dict becomes a native-block dict with name :=
func.get("name"), description := func.get("description", ""),
input_schema := func.get("parameters", object schema with empty
properties); anything else is passed through. -/
def _convert_tools_to_claude_format (tools : List ToolDict) :
    List ClaudeToolEntry :=
  tools.map fun t =>
    match t with
    | ToolDict.function f =>
        ClaudeToolEntry.claude f.name (f.description.getD "")
          (f.parameters.getD defaultInputSchema)
    | ToolDict.other j => ClaudeToolEntry.passthrough j

/-- ToolDef.to_openai_format from tools/_base.py: the dict with type
"function" and a function sub-dict carrying name, description,
parameters. -/
def ToolDef.to_openai_format (td : ToolDef) : ToolDict :=
  ToolDict.function ⟨some td.name, some td.description, some td.parameters⟩

/-- The MCP wire shape: keys "name", "description", "inputSchema". -/
structure MCPTool where
  name : String
  description : String
  inputSchema : JVal
deriving Repr

/-- ToolDef.to_mcp_format from tools/_base.py. -/
def ToolDef.to_mcp_format (td : ToolDef) : MCPTool :=
  ⟨td.name, td.description, td.parameters⟩

/-- The Claude native wire shape: keys "name", "description",
"input_schema". -/
structure ClaudeTool where
  name : String
  description : String
  input_schema : JVal
deriving Repr

/-- ToolDef.to_claude_format from tools/_base.py. -/
def ToolDef.to_claude_format (td : ToolDef) : ClaudeTool :=
  ⟨td.name, td.description, td.parameters⟩

/-- Modelled from the spec: the native-block → function-list direction of
the Format Converter (§4.2 calls the translation bidirectional, §6 gives
both shapes); no source file under src implements this direction, so it is
taken from the spec's shapes: a native-block dict (name, description,
input_schema) becomes (type "function", function (name, description,
parameters)); a passed-through dict stays as it is. -/
def convert_tools_to_function_list (tools : List ClaudeToolEntry) :
    List ToolDict :=
  tools.map fun t =>
    match t with
    | ClaudeToolEntry.claude n d s => ToolDict.function ⟨n, some d, some s⟩
    | ClaudeToolEntry.passthrough j => ToolDict.other j

/-- Modelled from the spec: the Tool Registry (§4.3).  tools/_registry.py is
imported by tools/__init__.py but is not present under src, so the registry
state is modelled from the spec's words: an in-memory store of tool
definitions keyed by name in registration order, together with the set of
capability tags available in the running environment. -/
structure ToolRegistry where
  tools : List (String × ToolDef)
  available_capabilities : List String

/-- Modelled from the spec: registry introspection getTool(name) (§4.3). -/
def ToolRegistry.get_tool (r : ToolRegistry) (name : String) : Option ToolDef :=
  (r.tools.find? (fun p => p.1 = name)).map (fun p => p.2)

/-- Modelled from the spec: registry introspection getToolNames() (§4.3). -/
def ToolRegistry.get_tool_names (r : ToolRegistry) : List String :=
  r.tools.map (fun p => p.1)

/-- Modelled from the spec: Registry.execute (§4.3): look the tool up by
name; if absent return a structured "tool not found" error string (not a
thrown fault); if its requiredCapabilities are not all available return a
"capability unavailable" message without invoking the handler; otherwise
await the handler, catching any fault raised inside it and converting it to
an error string prefixed with the tool name.  Dispatch never mutates
registry structure (§4.3), so the unchanged registry is returned alongside
the textual result. -/
def ToolRegistry.execute (r : ToolRegistry) (name : String) (args : JVal)
    (ctx : ToolContext) : String × ToolRegistry :=
  match r.get_tool name with
  | none => ("Error: tool '" ++ name ++ "' not found", r)
  | some td =>
      if td.requires.all (fun c => r.available_capabilities.contains c) then
        match td.handler args ctx with
        | Except.ok s => (s, r)
        | Except.error e => ("Error in tool '" ++ td.name ++ "': " ++ e, r)
      else
        ("Error: tool '" ++ td.name ++ "' requires an unavailable capability", r)

/-- The per-call ToolContext built by the wrapper tool_handler that
ClaraMCPServer._register_tool installs in tools/_mcp_server.py:
user_id "mcp-user", platform "mcp", extra holding the key "mcp_server". -/
def mcpCallContext : ToolContext :=
  ⟨"mcp-user", none, "mcp", ["mcp_server"]⟩

/-- The wrapper tool_handler from ClaraMCPServer._register_tool in
tools/_mcp_server.py: builds the per-call ToolContext and returns
await tool_def.handler(kwargs, context) — the tool definition's own handler
invoked directly, not a call into the registry. -/
def mcp_tool_handler (tool_def : ToolDef) (kwargs : JVal) :
    Except String String :=
  tool_def.handler kwargs mcpCallContext

/-- The skip test of ClaraMCPServer._create_server in tools/_mcp_server.py:
a tool is skipped when tool_def.platforms is truthy (a non-empty list),
does not contain "mcp", and equals the one-element list of "discord";
every other tool is registered with the transport. -/
def mcpSkipsTool (td : ToolDef) : Bool :=
  match td.platforms with
  | none => false
  | some ps => ¬ ps.isEmpty ∧ ¬ ps.contains "mcp" ∧ ps = ["discord"]

/-- The tool snapshot ClaraMCPServer._create_server registers with the
transport, as a function of the registry's definition list: the loop over
get_tool_names / get_tool visits the definitions in order and registers
those the skip test lets through. -/
def create_server_tools (tds : List ToolDef) : List ToolDef :=
  tds.filter (fun td => ¬ mcpSkipsTool td)

/-- The claim's eligibility predicate, stated from the spec's words (§4.5):
registered iff the platform set is unset or includes the bridge's "mcp"
tag.  Kept separate from the code-derived skip test so the two can be
compared. -/
def bridge_eligible_spec (td : ToolDef) : Bool :=
  match td.platforms with
  | none => true
  | some ps => ps.contains "mcp"

/-- The parsed CLI arguments of mcp_server.py's main(): --sse (store_true),
--port (int, default from environment), --host (default "localhost"),
--hot-reload (store_true). -/
structure CliArgs where
  sse : Bool
  port : Int
  host : String
  hot_reload : Bool
deriving Repr

/-- The digit-accumulation loop of decimal integer parsing. -/
def digitsToNat : Nat → List Char → Option Nat
  | acc, [] => some acc
  | acc, c :: cs =>
      if c.isDigit then digitsToNat (acc * 10 + (c.toNat - 48)) cs else none

/-- Python's int() applied to a decimal string such as an environment
value: an optional leading minus sign followed by digits; anything else
raises ValueError, modelled as `none`. -/
def pyIntParse (s : String) : Option Int :=
  match s.data with
  | [] => none
  | c :: cs =>
      if c = '-' then (digitsToNat 0 cs).map (fun n => -(n : Int))
      else (digitsToNat 0 (c :: cs)).map (fun n => (n : Int))

/-- The argument parser of mcp_server.py's main(), as a function of the
MCP_SERVER_PORT environment value and of the values supplied on the command
line (`none` = flag not given).  The port default is
int(os.getenv("MCP_SERVER_PORT", "8002")), evaluated when the parser is
built, so a non-integer environment value makes parser construction itself
raise: that is the `none` result. -/
def parse_args (env_port : Option String) (sse : Bool) (port : Option Int)
    (host : Option String) (hot_reload : Bool) : Option CliArgs := do
  let default_port ← pyIntParse (env_port.getD "8002")
  pure ⟨sse, port.getD default_port, host.getD "localhost", hot_reload⟩

/-- The availability gate at the top of mcp_server.py's main(): when
is_mcp_available() is false the process prints to stderr and exits with
status 1; otherwise main proceeds. -/
def main_availability_gate (mcp_available : Bool) : Except Nat Unit :=
  if mcp_available then Except.ok () else Except.error 1

/-! ### Concrete fixtures used by witnesses and counterexamples -/

/-- A handler that returns the empty string on every input. -/
def nullHandler : ToolHandler := fun _ _ => Except.ok ""

/-- A tool whose handler always raises with message "boom". -/
def faultyTool : ToolDef :=
  ⟨"boom_tool", "always raises", defaultInputSchema,
    fun _ _ => Except.error "boom", none, []⟩

/-- A registry holding only `faultyTool`, with no capabilities needed. -/
def faultyRegistry : ToolRegistry := ⟨[("boom_tool", faultyTool)], []⟩

/-- A tool whose platform set is exactly the single platform "api". -/
def apiOnlyTool : ToolDef :=
  ⟨"api_tool", "api only", defaultInputSchema, nullHandler, some ["api"], []⟩

/-- The spec example's two tool-result messages and trailing user turn. -/
def toolMsgA : Message := ⟨some "tool", some "result A", [], some "call_A"⟩

/-- Second tool-result message of the spec example. -/
def toolMsgB : Message := ⟨some "tool", some "result B", [], some "call_B"⟩

/-- The trailing plain user message of the spec example. -/
def userMsgHi : Message := ⟨some "user", some "hi", [], none⟩

/-- An assistant tool call whose arguments text does not parse as JSON. -/
def badCall : ToolCall :=
  ⟨some "call_X", some ⟨some "do_thing", some JsonText.malformed⟩⟩

/-- An assistant message carrying only the malformed tool call. -/
def badAssistantMsg : Message := ⟨some "assistant", none, [badCall], none⟩

/-- An assistant tool call whose arguments text parses to the empty
object. -/
def goodCall : ToolCall :=
  ⟨some "call_A", some ⟨some "do_thing", some (JsonText.ok (JVal.jobj []))⟩⟩

/-- An assistant message with text content and one well-formed tool
call. -/
def goodAssistantMsg : Message :=
  ⟨some "assistant", some "thinking", [goodCall], none⟩

/-- First tool call of the spec's batching example: id call_A, a name and
arguments that parse to the empty object. -/
def callA : ToolCall :=
  ⟨some "call_A", some ⟨some "tool_A", some (JsonText.ok (JVal.jobj []))⟩⟩

/-- Second tool call of the spec's batching example. -/
def callB : ToolCall :=
  ⟨some "call_B", some ⟨some "tool_B", some (JsonText.ok (JVal.jobj []))⟩⟩

/-- The assistant turn of the spec's batching example, issuing the two
tool calls A and B with no text content. -/
def asstMsgAB : Message := ⟨some "assistant", none, [callA, callB], none⟩

/-- The tool-role test delimiting a consecutive run of tool-result
messages. -/
def isToolRole (m : Message) : Bool := m.role = some "tool"

/-- The claim's conversion of one non-tool-result message, from the spec's
words (§4.2): an assistant message with tool calls becomes one assistant
turn of its text and tool_use blocks (a malformed call surfacing the
error); any other message is emitted unchanged. -/
def convertSpecMsg (m : Message) : Except ConvError ClaudeMessage :=
  if m.role = some "assistant" ∧ ¬ m.tool_calls.isEmpty then do
    let ub ← mapToolUseBlocks m.tool_calls
    Except.ok (ClaudeMessage.assistantBlocks (assistantTextBlocks m ++ ub))
  else Except.ok (ClaudeMessage.passthrough m)

/-- The batching specification of the history conversion, stated from the
claim's words rather than from the source (the source-derived converter is
proved equal to it): each maximal consecutive run of tool-role messages
becomes exactly one user turn holding one tool_result block per result in
the order received, placed immediately before the conversion of the next
non-tool-result message, and a run that closes the history is flushed as
one final batched user turn. -/
def convertSpec : List Message → Except ConvError (List ClaudeMessage)
  | [] => Except.ok []
  | m :: rest =>
      if m.role = some "tool" then
        let run := m :: rest.takeWhile isToolRole
        let rest' := rest.dropWhile isToolRole
        if rest'.isEmpty then
          Except.ok [ClaudeMessage.userResults (run.map toolResultBlock)]
        else do
          let tail ← convertSpec rest'
          Except.ok (ClaudeMessage.userResults (run.map toolResultBlock) :: tail)
      else do
        let x ← convertSpecMsg m
        let tail ← convertSpec rest
        Except.ok (x :: tail)
termination_by msgs => msgs.length
decreasing_by
  all_goals simp only [List.length_cons, Nat.lt_succ_iff]
  · exact (List.dropWhile_sublist isToolRole).length_le
  · exact Nat.le_refl _

/-! ### Generic helper lemmas -/

theorem exceptBind_ok {ε α β : Type} (a : α) (f : α → Except ε β) :
    (Except.ok a : Except ε α) >>= f = f a := rfl

theorem exceptBind_error {ε α β : Type} (e : ε) (f : α → Except ε β) :
    (Except.error e : Except ε α) >>= f = Except.error e := rfl

theorem exceptMap_ok {ε α β : Type} (f : α → β) (a : α) :
    Except.map f (Except.ok a : Except ε α) = Except.ok (f a) := rfl

theorem exceptMap_error {ε α β : Type} (f : α → β) (e : ε) :
    Except.map f (Except.error e : Except ε α) = Except.error e := rfl

theorem convError_eq (e : ConvError) : e = ConvError.malformedToolCall := by
  cases e; rfl

/-! ### Structural lemmas about the message converter -/

/-- A run of tool-role messages at the front of the remaining input is
absorbed, in order, into the pending accumulator. -/
theorem convertAux_tools (ts : List Message) (pending : List Block)
    (rest : List Message) (hts : ∀ t ∈ ts, t.role = some "tool") :
    convertAux pending (ts ++ rest)
      = convertAux (pending ++ ts.map toolResultBlock) rest := by
  induction ts generalizing pending with
  | nil => simp
  | cons t ts ih =>
      have ht : t.role = some "tool" := hts t (List.mem_cons_self t ts)
      have hts' : ∀ x ∈ ts, x.role = some "tool" :=
        fun x hx => hts x (List.mem_cons_of_mem t hx)
      simp only [List.cons_append, convertAux, ht, if_true, List.map_cons,
        List.append_eq]
      rw [ih _ hts']
      simp [List.append_assoc]

/-- A non-empty pending accumulator is flushed as one user turn placed in
front of the conversion of the rest, which then starts from an empty
accumulator; errors pass through unchanged. -/
theorem convertAux_flush (pending : List Block) (m : Message)
    (rest : List Message) (hp : pending.isEmpty = false)
    (hm : ¬ m.role = some "tool") :
    convertAux pending (m :: rest)
      = Except.map (fun l => ClaudeMessage.userResults pending :: l)
          (convertAux [] (m :: rest)) := by
  by_cases hA : m.role = some "assistant" ∧ ¬ m.tool_calls.isEmpty
  · cases hU : mapToolUseBlocks m.tool_calls with
    | error e =>
        simp only [convertAux, if_neg hm, hp, hU]
        rw [if_pos hA, if_pos hA]
        simp [exceptBind_error, exceptMap_error]
    | ok ub =>
        cases hT : convertAux [] rest with
        | error e =>
            simp only [convertAux, if_neg hm, hp, hU, hT]
            rw [if_pos hA, if_pos hA]
            simp [exceptBind_ok, exceptBind_error, exceptMap_error]
        | ok tail =>
            simp only [convertAux, if_neg hm, hp, hU, hT]
            rw [if_pos hA, if_pos hA]
            simp [exceptBind_ok, exceptMap_ok]
  · cases hT : convertAux [] rest with
    | error e =>
        simp only [convertAux, if_neg hm, hp, hT]
        rw [if_neg hA, if_neg hA]
        simp [exceptBind_error, exceptMap_error]
    | ok tail =>
        simp only [convertAux, if_neg hm, hp, hT]
        rw [if_neg hA, if_neg hA]
        simp [exceptBind_ok, exceptMap_ok]

/-- A history that is nothing but a non-empty run of tool-role messages
converts to exactly one final batched user turn. -/
theorem convertAux_final_flush (ts : List Message) (hne : ts ≠ [])
    (hts : ∀ t ∈ ts, t.role = some "tool") :
    convertAux [] ts
      = Except.ok [ClaudeMessage.userResults (ts.map toolResultBlock)] := by
  have h := convertAux_tools ts [] [] hts
  rw [List.append_nil] at h
  rw [h]
  have hne' : (ts.map toolResultBlock).isEmpty = false := by
    cases ts with
    | nil => exact absurd rfl hne
    | cons a l => simp
  simp [convertAux, hne']

/-- A malformed tool call anywhere in a tool_calls list makes the
block-building loop fail with MalformedToolCall. -/
theorem mapToolUseBlocks_error (tcs : List ToolCall) (tc : ToolCall)
    (htc : tc ∈ tcs)
    (hbad : toolUseBlock tc = Except.error ConvError.malformedToolCall) :
    mapToolUseBlocks tcs = Except.error ConvError.malformedToolCall := by
  induction tcs with
  | nil => cases htc
  | cons t ts ih =>
      cases hU : toolUseBlock t with
      | error e =>
          simp [mapToolUseBlocks, hU, exceptBind_error, convError_eq e]
      | ok b =>
          rcases List.mem_cons.mp htc with h | h
          · rw [← h] at hU
            rw [hU] at hbad
            cases hbad
          · simp [mapToolUseBlocks, hU, ih h, exceptBind_ok, exceptBind_error]

/-- A malformed tool call inside any assistant message with a non-empty
tool_calls list makes the whole conversion fail with MalformedToolCall,
whatever the accumulator state. -/
theorem convertAux_malformed (msgs : List Message) (m : Message)
    (tc : ToolCall) (hrole : m.role = some "assistant")
    (htc : tc ∈ m.tool_calls)
    (hbad : toolUseBlock tc = Except.error ConvError.malformedToolCall)
    (hmem : m ∈ msgs) :
    ∀ pending, convertAux pending msgs
      = Except.error ConvError.malformedToolCall := by
  induction msgs with
  | nil => cases hmem
  | cons mh rest ih =>
      intro pending
      have hcalls : ¬ m.tool_calls.isEmpty := by
        cases hc : m.tool_calls with
        | nil => rw [hc] at htc; cases htc
        | cons a l => simp
      by_cases hr : mh.role = some "tool"
      · have hmem' : m ∈ rest := by
          rcases List.mem_cons.mp hmem with h | h
          · rw [← h, hrole] at hr
            simp at hr
          · exact h
        simp only [convertAux, hr, if_true]
        exact ih hmem' _
      · rcases List.mem_cons.mp hmem with h | h
        · have hA : mh.role = some "assistant" ∧ ¬ mh.tool_calls.isEmpty := by
            rw [← h]; exact ⟨hrole, hcalls⟩
          have hU : mapToolUseBlocks mh.tool_calls
              = Except.error ConvError.malformedToolCall := by
            rw [← h]; exact mapToolUseBlocks_error m.tool_calls tc htc hbad
          simp only [convertAux, if_neg hr]
          rw [if_pos hA]
          simp [hU, exceptBind_error]
        · have htail := ih h []
          by_cases hA : mh.role = some "assistant" ∧ ¬ mh.tool_calls.isEmpty
          · simp only [convertAux, if_neg hr]
            rw [if_pos hA]
            cases hU : mapToolUseBlocks mh.tool_calls with
            | error e =>
                simp [hU, exceptBind_error, convError_eq e]
            | ok ub =>
                simp [hU, htail, exceptBind_ok, exceptBind_error]
          · simp only [convertAux, if_neg hr]
            rw [if_neg hA]
            simp [htail, exceptBind_error]

/-- Successful conversion of a history headed by a non-tool message
decomposes as: the flushed pending turn (if any), then one converted
message — assistant blocks when the head is an assistant with tool calls,
the untouched head otherwise — then the conversion of the rest from an
empty accumulator. -/
theorem convertAux_cons_nontool_ok (pending : List Block) (m : Message)
    (rest : List Message) (out : List ClaudeMessage)
    (hm : ¬ m.role = some "tool")
    (h : convertAux pending (m :: rest) = Except.ok out) :
    ∃ mid tail, convertAux [] rest = Except.ok tail ∧
      out = (if pending.isEmpty then [] else [ClaudeMessage.userResults pending])
            ++ [mid] ++ tail ∧
      ((m.role = some "assistant" ∧ ¬ m.tool_calls.isEmpty) →
        ∃ ub, mapToolUseBlocks m.tool_calls = Except.ok ub ∧
          mid = ClaudeMessage.assistantBlocks (assistantTextBlocks m ++ ub)) ∧
      (¬ (m.role = some "assistant" ∧ ¬ m.tool_calls.isEmpty) →
        mid = ClaudeMessage.passthrough m) := by
  by_cases hA : m.role = some "assistant" ∧ ¬ m.tool_calls.isEmpty
  · simp only [convertAux, if_neg hm] at h
    rw [if_pos hA] at h
    cases hU : mapToolUseBlocks m.tool_calls with
    | error e =>
        rw [hU] at h
        simp [exceptBind_error] at h
    | ok ub =>
        rw [hU] at h
        cases hT : convertAux [] rest with
        | error e =>
            rw [hT] at h
            simp [exceptBind_ok, exceptBind_error] at h
        | ok tail =>
            rw [hT] at h
            simp only [exceptBind_ok, Except.ok.injEq] at h
            exact ⟨ClaudeMessage.assistantBlocks (assistantTextBlocks m ++ ub),
              tail, rfl, h.symm, fun _ => ⟨ub, rfl, rfl⟩,
              fun hc => absurd hA hc⟩
  · simp only [convertAux, if_neg hm] at h
    rw [if_neg hA] at h
    cases hT : convertAux [] rest with
    | error e =>
        rw [hT] at h
        simp [exceptBind_error] at h
    | ok tail =>
        rw [hT] at h
        simp only [exceptBind_ok, Except.ok.injEq] at h
        exact ⟨ClaudeMessage.passthrough m, tail, rfl, h.symm,
          fun hc => absurd hc hA, fun _ => rfl⟩

/-- A successful conversion emits no passed-through tool-role message. -/
theorem convertAux_ok_no_tool_passthrough (msgs : List Message) :
    ∀ (pending : List Block) (out : List ClaudeMessage),
      convertAux pending msgs = Except.ok out →
      ∀ m', ClaudeMessage.passthrough m' ∈ out → ¬ m'.role = some "tool" := by
  induction msgs with
  | nil =>
      intro pending out h m' hmem
      by_cases hp : pending.isEmpty = true
      · rw [convertAux, if_pos hp] at h
        injection h with h'
        subst h'
        cases hmem
      · rw [convertAux, if_neg hp] at h
        injection h with h'
        subst h'
        simp at hmem
  | cons mh rest ih =>
      intro pending out h m' hmem
      by_cases hr : mh.role = some "tool"
      · simp only [convertAux, hr, if_true] at h
        exact ih _ _ h m' hmem
      · obtain ⟨mid, tail, hT, hout, hmidA, hmidP⟩ :=
          convertAux_cons_nontool_ok pending mh rest out hr h
        subst hout
        rcases List.mem_append.mp hmem with hm1 | hm2
        · rcases List.mem_append.mp hm1 with hE | hmid
          · by_cases hp : pending.isEmpty = true
            · rw [if_pos hp] at hE
              cases hE
            · rw [if_neg hp] at hE
              simp at hE
          · have heq : ClaudeMessage.passthrough m' = mid :=
              List.mem_singleton.mp hmid
            by_cases hA : mh.role = some "assistant" ∧ ¬ mh.tool_calls.isEmpty
            · obtain ⟨ub, _, hmid'⟩ := hmidA hA
              rw [hmid'] at heq
              simp at heq
            · rw [hmidP hA] at heq
              injection heq with heq'
              rw [heq']
              exact hr
        · exact ih [] tail hT m' hm2

/-- In a successful conversion, every block of the pending accumulator and
the tool_result block of every tool-role input message end up inside some
batched user turn of the output. -/
theorem convertAux_ok_results (msgs : List Message) :
    ∀ (pending : List Block) (out : List ClaudeMessage),
      convertAux pending msgs = Except.ok out →
      (∀ b ∈ pending, ∃ bs, ClaudeMessage.userResults bs ∈ out ∧ b ∈ bs)
      ∧ (∀ m ∈ msgs, m.role = some "tool" →
          ∃ bs, ClaudeMessage.userResults bs ∈ out ∧ toolResultBlock m ∈ bs) := by
  induction msgs with
  | nil =>
      intro pending out h
      constructor
      · intro b hb
        have hp : pending.isEmpty = false := by
          cases pending with
          | nil => cases hb
          | cons a l => simp
        rw [convertAux, hp] at h
        simp only [Bool.false_eq_true, if_false, Except.ok.injEq] at h
        subst h
        exact ⟨pending, List.mem_singleton.mpr rfl, hb⟩
      · intro m hm
        cases hm
  | cons mh rest ih =>
      intro pending out h
      by_cases hr : mh.role = some "tool"
      · simp only [convertAux, hr, if_true] at h
        obtain ⟨ihp, ihm⟩ := ih _ _ h
        refine ⟨fun b hb => ihp b (List.mem_append.mpr (Or.inl hb)), ?_⟩
        intro m hm hrole
        rcases List.mem_cons.mp hm with h' | h'
        · rw [h']
          exact ihp (toolResultBlock mh)
            (List.mem_append.mpr (Or.inr (List.mem_singleton.mpr rfl)))
        · exact ihm m h' hrole
      · obtain ⟨mid, tail, hT, hout, hmidA, hmidP⟩ :=
          convertAux_cons_nontool_ok pending mh rest out hr h
        subst hout
        obtain ⟨ihp, ihm⟩ := ih [] tail hT
        constructor
        · intro b hb
          have hp : pending.isEmpty = false := by
            cases pending with
            | nil => cases hb
            | cons a l => simp
          refine ⟨pending, ?_, hb⟩
          apply List.mem_append.mpr
          apply Or.inl
          apply List.mem_append.mpr
          apply Or.inl
          simp [hp]
        · intro m hm hrole
          rcases List.mem_cons.mp hm with h' | h'
          · rw [h'] at hrole
            exact absurd hrole hr
          · obtain ⟨bs, hbs, hbmem⟩ := ihm m h' hrole
            exact ⟨bs, List.mem_append.mpr (Or.inr hbs), hbmem⟩

/-- In a successful conversion, every assistant input message with tool
calls contributes an assistant turn whose blocks are its text blocks
followed by one tool_use block per call. -/
theorem convertAux_ok_assistant (msgs : List Message) :
    ∀ (pending : List Block) (out : List ClaudeMessage),
      convertAux pending msgs = Except.ok out →
      ∀ m ∈ msgs, m.role = some "assistant" → ¬ m.tool_calls.isEmpty →
        ∃ ub, mapToolUseBlocks m.tool_calls = Except.ok ub ∧
          ClaudeMessage.assistantBlocks (assistantTextBlocks m ++ ub) ∈ out := by
  induction msgs with
  | nil =>
      intro pending out h m hm
      cases hm
  | cons mh rest ih =>
      intro pending out h m hm hrole hcalls
      by_cases hr : mh.role = some "tool"
      · simp only [convertAux, hr, if_true] at h
        rcases List.mem_cons.mp hm with h' | h'
        · rw [h'] at hrole
          rw [hrole] at hr
          simp at hr
        · exact ih _ _ h m h' hrole hcalls
      · obtain ⟨mid, tail, hT, hout, hmidA, hmidP⟩ :=
          convertAux_cons_nontool_ok pending mh rest out hr h
        subst hout
        rcases List.mem_cons.mp hm with h' | h'
        · subst h'
          obtain ⟨ub, hub, hmid'⟩ := hmidA ⟨hrole, hcalls⟩
          refine ⟨ub, hub, ?_⟩
          rw [← hmid']
          exact List.mem_append.mpr
            (Or.inl (List.mem_append.mpr (Or.inr (List.mem_singleton.mpr rfl))))
        · obtain ⟨ub, hub, hmem⟩ := ih [] tail hT m h' hrole hcalls
          exact ⟨ub, hub, List.mem_append.mpr (Or.inr hmem)⟩

/-- In a successful conversion, every input message that is neither a
tool-role message nor an assistant message with tool calls appears in the
output unchanged. -/
theorem convertAux_ok_passthrough (msgs : List Message) :
    ∀ (pending : List Block) (out : List ClaudeMessage),
      convertAux pending msgs = Except.ok out →
      ∀ m ∈ msgs, ¬ m.role = some "tool" →
        ¬ (m.role = some "assistant" ∧ ¬ m.tool_calls.isEmpty) →
        ClaudeMessage.passthrough m ∈ out := by
  induction msgs with
  | nil =>
      intro pending out h m hm
      cases hm
  | cons mh rest ih =>
      intro pending out h m hm hrole hA
      by_cases hr : mh.role = some "tool"
      · simp only [convertAux, hr, if_true] at h
        rcases List.mem_cons.mp hm with h' | h'
        · rw [h'] at hrole
          exact absurd hr hrole
        · exact ih _ _ h m h' hrole hA
      · obtain ⟨mid, tail, hT, hout, hmidA, hmidP⟩ :=
          convertAux_cons_nontool_ok pending mh rest out hr h
        subst hout
        rcases List.mem_cons.mp hm with h' | h'
        · subst h'
          rw [← hmidP hA]
          exact List.mem_append.mpr
            (Or.inl (List.mem_append.mpr (Or.inr (List.mem_singleton.mpr rfl))))
        · exact List.mem_append.mpr (Or.inr (ih [] tail hT m h' hrole hA))

/-! ### Claim theorems -/

/-- The head of a dropWhile result fails the predicate. -/
theorem dropWhile_head_false {α : Type} (p : α → Bool) (l : List α)
    (x : α) (xs : List α) (h : l.dropWhile p = x :: xs) : p x = false := by
  induction l with
  | nil => simp [List.dropWhile] at h
  | cons a as ih =>
      rw [List.dropWhile_cons] at h
      by_cases hp : p a = true
      · rw [if_pos hp] at h
        exact ih h
      · rw [if_neg hp] at h
        injection h with h1 _
        rw [← h1]
        cases hpa : p a with
        | true => exact absurd hpa hp
        | false => rfl

/-- On a non-tool head with an empty accumulator the converter emits the
head's single-message conversion followed by the conversion of the rest. -/
theorem convertAux_specMsg_step (m : Message) (rest : List Message)
    (hm : ¬ m.role = some "tool") :
    convertAux [] (m :: rest)
      = convertSpecMsg m >>= fun x =>
          convertAux [] rest >>= fun tail => Except.ok (x :: tail) := by
  by_cases hA : m.role = some "assistant" ∧ ¬ m.tool_calls.isEmpty
  · simp only [convertAux, if_neg hm, convertSpecMsg]
    rw [if_pos hA, if_pos hA]
    cases hU : mapToolUseBlocks m.tool_calls with
    | error e => simp [hU, exceptBind_error]
    | ok ub =>
        cases hT : convertAux [] rest with
        | error e => simp [hU, hT, exceptBind_ok, exceptBind_error]
        | ok tail => simp [hU, hT, exceptBind_ok]
  · simp only [convertAux, if_neg hm, convertSpecMsg]
    rw [if_neg hA, if_neg hA]
    cases hT : convertAux [] rest with
    | error e => simp [hT, exceptBind_ok, exceptBind_error]
    | ok tail => simp [hT, exceptBind_ok]

/-- The source-derived converter agrees with the batching specification on
every history of bounded length. -/
theorem convert_eq_spec_aux : ∀ (n : Nat) (msgs : List Message),
    msgs.length ≤ n → convertAux [] msgs = convertSpec msgs := by
  intro n
  induction n with
  | zero =>
      intro msgs hlen
      have h0 : msgs = [] := List.eq_nil_of_length_eq_zero (Nat.le_zero.mp hlen)
      subst h0
      simp [convertAux, convertSpec]
  | succ n ih =>
      intro msgs hlen
      cases msgs with
      | nil => simp [convertAux, convertSpec]
      | cons m rest =>
          have hrest_le : rest.length ≤ n := Nat.succ_le_succ_iff.mp hlen
          by_cases hm : m.role = some "tool"
          · have hrun : ∀ t ∈ m :: rest.takeWhile isToolRole,
                t.role = some "tool" := by
              intro t ht
              rcases List.mem_cons.mp ht with h | h
              · rw [h]; exact hm
              · have := List.mem_takeWhile_imp h
                simpa [isToolRole] using this
            have hsplit : m :: rest
                = (m :: rest.takeWhile isToolRole)
                  ++ rest.dropWhile isToolRole := by
              rw [List.cons_append, List.takeWhile_append_dropWhile]
            rw [show convertAux [] (m :: rest)
                = convertAux [] ((m :: rest.takeWhile isToolRole)
                    ++ rest.dropWhile isToolRole) from by rw [← hsplit]]
            rw [convertAux_tools _ [] _ hrun, List.nil_append]
            cases hdrop : rest.dropWhile isToolRole with
            | nil =>
                conv_rhs => rw [convertSpec]
                rw [if_pos hm, hdrop]
                simp [convertAux]
            | cons h2 t2 =>
                have hm2 : ¬ h2.role = some "tool" := by
                  have := dropWhile_head_false isToolRole rest h2 t2 hdrop
                  simpa [isToolRole] using this
                have hpe : ((m :: rest.takeWhile isToolRole).map
                    toolResultBlock).isEmpty = false := by simp
                rw [convertAux_flush _ h2 t2 hpe hm2]
                have hlen2 : (h2 :: t2).length ≤ n := by
                  calc (h2 :: t2).length
                      = (rest.dropWhile isToolRole).length := by rw [hdrop]
                    _ ≤ rest.length :=
                        (List.dropWhile_sublist isToolRole).length_le
                    _ ≤ n := hrest_le
                rw [ih (h2 :: t2) hlen2]
                conv_rhs => rw [convertSpec]
                rw [if_pos hm, hdrop]
                cases hS : convertSpec (h2 :: t2) with
                | error e => simp [hS, exceptMap_error, exceptBind_error]
                | ok tail => simp [hS, exceptMap_ok, exceptBind_ok]
          · rw [convertAux_specMsg_step m rest hm, ih rest hrest_le]
            conv_rhs => rw [convertSpec]
            rw [if_neg hm]

/-! ### Claim theorems -/

/-- C1: for every message history, the conversion agrees with the batching
specification convertSpec, under which each maximal consecutive run of
tool-role messages becomes exactly one user turn holding one tool_result
block per result — tagged with each result's tool_call_id, in the order
received — emitted immediately before the conversion of the next
non-tool-result message, and a run still pending at the end of the history
is flushed as one final batched user turn; on the spec's own example
(assistant calling A and B, result for A, result for B, a user message)
the output is one assistant turn with two tool_use blocks, one user turn
with the two tool_result blocks for A then B, then the user message —
never separate user turns per result. -/
theorem c1_batching :
    (∀ msgs : List Message,
      _convert_messages_to_claude_format msgs = convertSpec msgs)
    ∧ _convert_messages_to_claude_format
        [asstMsgAB, toolMsgA, toolMsgB, userMsgHi]
      = Except.ok
          [ClaudeMessage.assistantBlocks
              [Block.tool_use (some "call_A") (some "tool_A") (JVal.jobj []),
                Block.tool_use (some "call_B") (some "tool_B") (JVal.jobj [])],
            ClaudeMessage.userResults
              [toolResultBlock toolMsgA, toolResultBlock toolMsgB],
            ClaudeMessage.passthrough userMsgHi] :=
  ⟨fun msgs => convert_eq_spec_aux msgs.length msgs (Nat.le_refl _), rfl⟩

/-- C8: a history containing an assistant message with a tool call whose
arguments string does not parse as JSON makes the whole conversion surface
MalformedToolCall to its caller — the parse failure propagates, it is not
absorbed; and on every successful conversion no tool call is silently
dropped: each assistant message with tool calls yields an assistant turn
holding one tool_use block per call. -/
theorem c8_malformed_propagation :
    (∀ (msgs : List Message) (m : Message) (tc : ToolCall),
      m ∈ msgs → m.role = some "assistant" → tc ∈ m.tool_calls →
      (tc.function.getD ⟨none, none⟩).arguments.getD emptyObjText
          = JsonText.malformed →
      _convert_messages_to_claude_format msgs
        = Except.error ConvError.malformedToolCall)
    ∧ (∀ (msgs : List Message) (out : List ClaudeMessage),
      _convert_messages_to_claude_format msgs = Except.ok out →
      ∀ m ∈ msgs, m.role = some "assistant" → ¬ m.tool_calls.isEmpty →
      ∃ ub, mapToolUseBlocks m.tool_calls = Except.ok ub ∧
        ClaudeMessage.assistantBlocks (assistantTextBlocks m ++ ub) ∈ out) := by
  constructor
  · intro msgs m tc hmem hrole htc hargs
    have hbad : toolUseBlock tc = Except.error ConvError.malformedToolCall := by
      simp only [toolUseBlock, hargs]
    exact convertAux_malformed msgs m tc hrole htc hbad hmem []
  · intro msgs out h m hm hrole hcalls
    exact convertAux_ok_assistant msgs [] out h m hm hrole hcalls

/-- C8 witness: the malformed single-call history errors out with
MalformedToolCall, and the well-formed single-call history keeps its one
tool_use block in the emitted assistant turn. -/
theorem c8_malformed_propagation_witness :
    _convert_messages_to_claude_format [badAssistantMsg]
      = Except.error ConvError.malformedToolCall
    ∧ (∃ ub, mapToolUseBlocks goodAssistantMsg.tool_calls = Except.ok ub ∧
        ClaudeMessage.assistantBlocks (assistantTextBlocks goodAssistantMsg ++ ub)
          ∈ [ClaudeMessage.assistantBlocks
              (assistantTextBlocks goodAssistantMsg
                ++ [Block.tool_use (some "call_A") (some "do_thing")
                      (JVal.jobj [])])]) :=
  ⟨c8_malformed_propagation.1 [badAssistantMsg] badAssistantMsg badCall
      (List.mem_singleton.mpr rfl) rfl (List.mem_singleton.mpr rfl) rfl,
    c8_malformed_propagation.2 [goodAssistantMsg]
      [ClaudeMessage.assistantBlocks
        (assistantTextBlocks goodAssistantMsg
          ++ [Block.tool_use (some "call_A") (some "do_thing") (JVal.jobj [])])]
      rfl goodAssistantMsg (List.mem_singleton.mpr rfl) rfl
      (by simp [goodAssistantMsg])⟩

/-- C10: a successful conversion contains no tool-role message: the
only survivors of the input are non-tool messages, tool-role inputs occur
only as tool_result blocks inside batched user turns, and inputs that are
neither tool-role nor assistant-with-tool-calls are passed through
unchanged. -/
theorem c10_no_tool_role_output (msgs : List Message)
    (out : List ClaudeMessage)
    (h : _convert_messages_to_claude_format msgs = Except.ok out) :
    (∀ m', ClaudeMessage.passthrough m' ∈ out → ¬ m'.role = some "tool")
    ∧ (∀ m ∈ msgs, m.role = some "tool" →
        ∃ bs, ClaudeMessage.userResults bs ∈ out ∧ toolResultBlock m ∈ bs)
    ∧ (∀ m ∈ msgs, ¬ m.role = some "tool" →
        ¬ (m.role = some "assistant" ∧ ¬ m.tool_calls.isEmpty) →
        ClaudeMessage.passthrough m ∈ out) :=
  ⟨convertAux_ok_no_tool_passthrough msgs [] out h,
    (convertAux_ok_results msgs [] out h).2,
    convertAux_ok_passthrough msgs [] out h⟩

/-- C10 witness: on the history of one tool result followed by one plain
user message, the output has the tool result only inside the batched
user turn and the user message passed through unchanged. -/
theorem c10_no_tool_role_output_witness :
    (∀ m', ClaudeMessage.passthrough m'
        ∈ [ClaudeMessage.userResults [toolResultBlock toolMsgA],
            ClaudeMessage.passthrough userMsgHi] →
      ¬ m'.role = some "tool")
    ∧ (∀ m ∈ [toolMsgA, userMsgHi], m.role = some "tool" →
        ∃ bs, ClaudeMessage.userResults bs
            ∈ [ClaudeMessage.userResults [toolResultBlock toolMsgA],
                ClaudeMessage.passthrough userMsgHi]
          ∧ toolResultBlock m ∈ bs)
    ∧ (∀ m ∈ [toolMsgA, userMsgHi], ¬ m.role = some "tool" →
        ¬ (m.role = some "assistant" ∧ ¬ m.tool_calls.isEmpty) →
        ClaudeMessage.passthrough m
          ∈ [ClaudeMessage.userResults [toolResultBlock toolMsgA],
              ClaudeMessage.passthrough userMsgHi]) :=
  c10_no_tool_role_output [toolMsgA, userMsgHi]
    [ClaudeMessage.userResults [toolResultBlock toolMsgA],
      ClaudeMessage.passthrough userMsgHi] rfl

/-- C7: the three wire-format exports of a ToolDefinition produce exactly
the spec's shapes — function-list is a dict of type "function" whose
function sub-dict carries name, description, parameters; native-block
carries name, description, input_schema; external-protocol carries name,
description, inputSchema — each with the definition's own fields
unmodified. -/
theorem c7_wire_formats (td : ToolDef) :
    td.to_openai_format
        = ToolDict.function ⟨some td.name, some td.description, some td.parameters⟩
    ∧ td.to_claude_format
        = ClaudeTool.mk td.name td.description td.parameters
    ∧ td.to_mcp_format
        = MCPTool.mk td.name td.description td.parameters :=
  ⟨rfl, rfl, rfl⟩

/-- C6: converting a tool definition's function-list form to the
native-block convention and back (the native-block → function-list
direction modelled from the spec, as src has no such function) is the
identity; in particular name, description and parameter schema are
preserved exactly. -/
theorem c6_round_trip (td : ToolDef) :
    _convert_tools_to_claude_format [td.to_openai_format]
        = [ClaudeToolEntry.claude (some td.name) td.description td.parameters]
    ∧ convert_tools_to_function_list
        (_convert_tools_to_claude_format [td.to_openai_format])
        = [td.to_openai_format] :=
  ⟨rfl, rfl⟩

/-- C4 counterexample: the ToolDef dataclass performs no construction-time
validation, so constructing it with an empty name and a non-object
parameter schema succeeds instead of failing with ContractViolation as the
claim states. -/
theorem c4_counterexample :
    (ToolDef.construct "" "d" (JVal.jstr "not an object schema")
        nullHandler none []).isOk = true :=
  rfl

/-- C4 amended: constructing a ToolDefinition never fails — the dataclass
has no validator, so construction succeeds for every name (the empty one
included), every parameter schema and every handler, storing the fields
verbatim. -/
theorem c4_construction_never_fails (n d : String) (p : JVal)
    (h : ToolHandler) (pl : Option (List String)) (r : List String) :
    ToolDef.construct n d p h pl r = Except.ok ⟨n, d, p, h, pl, r⟩ :=
  rfl

/-- C2 counterexample: the bridge's wrapper handler invokes the tool's own
handler directly, so a handler fault propagates to the transport as a
raised error, unlike Registry.execute on the same tool and arguments, which
contains the fault into a textual result — refuting the claim that each
inbound call delegates to Registry.execute and returns its textual result
verbatim. -/
theorem c2_counterexample :
    mcp_tool_handler faultyTool (JVal.jobj []) = Except.error "boom"
    ∧ (faultyRegistry.execute "boom_tool" (JVal.jobj []) mcpCallContext).1
        = "Error in tool 'boom_tool': boom"
    ∧ mcp_tool_handler faultyTool (JVal.jobj [])
        ≠ Except.ok
            ((faultyRegistry.execute "boom_tool" (JVal.jobj []) mcpCallContext).1) :=
  ⟨rfl, rfl, fun h => Except.noConfusion h⟩

/-- C2 amended: each inbound bridge call constructs a fresh ToolContext
whose platform tag is "mcp" (user_id "mcp-user"), and dispatches by
invoking the tool definition's handler directly — bypassing
Registry.execute, so its lookup, capability gating and fault containment do
not apply — returning the handler's own result to the transport. -/
theorem c2_bridge_dispatch (td : ToolDef) (kwargs : JVal) :
    mcp_tool_handler td kwargs = td.handler kwargs mcpCallContext
    ∧ mcpCallContext.platform = "mcp"
    ∧ mcpCallContext.user_id = "mcp-user" :=
  ⟨rfl, rfl, rfl⟩

/-- C3 counterexample: a tool whose platform set is exactly the single
platform "api" — one platform other than the bridge's "mcp" tag — is
registered by the bridge's startup loop even though the claim's
eligibility predicate (platform set unset or containing "mcp") excludes
it. -/
theorem c3_counterexample :
    create_server_tools [apiOnlyTool] = [apiOnlyTool]
    ∧ bridge_eligible_spec apiOnlyTool = false :=
  ⟨rfl, rfl⟩

/-- C3 amended: at bridge startup a tool is registered with the external
transport if and only if its platform set is not exactly the one-element
list of "discord"; in particular tools restricted to a single non-"mcp"
platform other than "discord" are still registered. -/
theorem c3_bridge_filter (tds : List ToolDef) (td : ToolDef)
    (h : td ∈ tds) :
    td ∈ create_server_tools tds ↔ td.platforms ≠ some ["discord"] := by
  have hskip : mcpSkipsTool td = true ↔ td.platforms = some ["discord"] := by
    unfold mcpSkipsTool
    cases hps : td.platforms with
    | none => simp
    | some ps =>
        simp only [Option.some.injEq]
        constructor
        · intro hb
          have := of_decide_eq_true hb
          exact this.2.2
        · intro hb
          subst hb
          decide
  rw [create_server_tools, List.mem_filter]
  constructor
  · intro hm
    intro hEq
    have := hm.2
    rw [decide_eq_true_iff] at this
    exact this (hskip.mpr hEq)
  · intro hne
    refine ⟨h, ?_⟩
    rw [decide_eq_true_iff]
    intro hb
    exact hne (hskip.mp hb)

/-- C3 amended witness: the "api"-restricted tool is in the registered
snapshot, and indeed its platform set is not exactly the "discord"
singleton. -/
theorem c3_bridge_filter_witness :
    apiOnlyTool ∈ create_server_tools [apiOnlyTool] :=
  (c3_bridge_filter [apiOnlyTool] apiOnlyTool (List.mem_singleton.mpr rfl)).mpr
    (by intro h; simp [apiOnlyTool] at h)

/-- C5: Registry.execute (modelled from the spec, its source being absent
from src) contains handler faults: when the named tool is registered and
its capabilities are available, a handler that raises with message e makes
execute return normally with the textual result "Error in tool
'name': e" — a string containing the tool's name — and the registry value
is unchanged, so it remains queryable. -/
theorem c5_fault_containment (r : ToolRegistry) (name : String) (args : JVal)
    (ctx : ToolContext) (td : ToolDef) (e : String)
    (hfind : r.get_tool name = some td)
    (hcap : td.requires.all (fun c => r.available_capabilities.contains c) = true)
    (hfault : td.handler args ctx = Except.error e) :
    (r.execute name args ctx).1 = "Error in tool '" ++ td.name ++ "': " ++ e
    ∧ (∃ pre post, (r.execute name args ctx).1 = pre ++ td.name ++ post)
    ∧ (r.execute name args ctx).2 = r := by
  have hres : r.execute name args ctx
      = ("Error in tool '" ++ td.name ++ "': " ++ e, r) := by
    simp only [ToolRegistry.execute, hfind, hcap, hfault, if_true]
  rw [hres]
  exact ⟨rfl, ⟨"Error in tool '", "': " ++ e, (String.append_assoc _ _ _)⟩, rfl⟩

/-- C5 witness: executing the always-raising tool through the registry
yields the contained textual error and leaves the registry unchanged. -/
theorem c5_fault_containment_witness :
    (faultyRegistry.execute "boom_tool" (JVal.jobj []) mcpCallContext).1
        = "Error in tool '" ++ faultyTool.name ++ "': " ++ "boom"
    ∧ (∃ pre post,
        (faultyRegistry.execute "boom_tool" (JVal.jobj []) mcpCallContext).1
          = pre ++ faultyTool.name ++ post)
    ∧ (faultyRegistry.execute "boom_tool" (JVal.jobj []) mcpCallContext).2
        = faultyRegistry :=
  c5_fault_containment faultyRegistry "boom_tool" (JVal.jobj [])
    mcpCallContext faultyTool "boom" rfl rfl rfl

/-- C9: the standalone bridge's CLI has a transport-mode flag, a port flag
defaulting to 8002 (overridable through the MCP_SERVER_PORT environment
value), a host flag defaulting to "localhost" and a hot-reload flag; both
port and host can also be given explicitly; and a missing external protocol
dependency makes the process exit with code 1. -/
theorem c9_cli (sse hot : Bool) (s : String) (n : Int)
    (hs : pyIntParse s = some n) :
    parse_args none sse none none hot = some ⟨sse, 8002, "localhost", hot⟩
    ∧ parse_args (some s) sse none none hot = some ⟨sse, n, "localhost", hot⟩
    ∧ (∀ p hostv, parse_args none sse (some p) (some hostv) hot
        = some ⟨sse, p, hostv, hot⟩)
    ∧ main_availability_gate false = Except.error 1 := by
  have h8002 : pyIntParse "8002" = some 8002 := by decide
  refine ⟨?_, ?_, fun p hostv => ?_, rfl⟩
  · simp [parse_args, h8002]
  · simp [parse_args, hs]
  · simp [parse_args, h8002]

/-- C9 witness: with the environment value "9000" the default port is 9000;
with no environment value it is 8002; explicit flags win; missing
dependency exits 1. -/
theorem c9_cli_witness :
    parse_args none true none none false = some ⟨true, 8002, "localhost", false⟩
    ∧ parse_args (some "9000") true none none false
        = some ⟨true, 9000, "localhost", false⟩
    ∧ (∀ p hostv, parse_args none true (some p) (some hostv) false
        = some ⟨true, p, hostv, false⟩)
    ∧ main_availability_gate false = Except.error 1 :=
  c9_cli true false "9000" 9000 (by decide)

end Clarissa
